import Mathlib

/-!
Shallow embedding of `src/one.py`, a small numpy script implementing a random
Markov-chain generative model over a finite discrete state space.

Modelling conventions:
* numpy float64 values are idealised as rationals `ℚ`;
* the process-wide pseudo-random source is passed in explicitly: matrix
  construction receives a draw function `u : ℕ → ℕ → ℚ` giving the uniform
  sample for entry (i, j) of `np.random.uniform`, and each categorical draw of
  `np.random.choice` is driven by one uniform sample `r` from [0,1) through the
  inverse-CDF map `choiceIdx`;
* numpy exceptions (IndexError on a bad index or on indexing a 0-d array)
  become `Except.error`;
* a Python value flowing into the numpy calls is either a 1-d array (a list)
  or a plain number, which numpy treats as a 0-d array: type `NpVal`.
-/

set_option autoImplicit false

namespace One

/-- A value as seen by the numpy calls in the script: a 0-dimensional scalar
array (what a plain Python number becomes) or a 1-d vector. -/
inductive NpVal where
  | scalar : ℚ → NpVal
  | vec : List ℚ → NpVal
deriving DecidableEq

/-- Scan for `np.argmax`: `i` is the index of the head of the remaining list,
`best` the index of the first maximum seen so far, `bv` its value. A strict
comparison keeps the earlier index on ties, as numpy does. -/
def argmaxAux : List ℚ → ℕ → ℕ → ℚ → ℕ
  | [], _, best, _ => best
  | x :: xs, i, best, bv =>
    if bv < x then argmaxAux xs (i + 1) i x else argmaxAux xs (i + 1) best bv

/-- `np.argmax` over a 1-d vector: index of the first occurrence of the
maximum (0 on the empty vector, where numpy instead raises). -/
def argmax : List ℚ → ℕ
  | [] => 0
  | x :: xs => argmaxAux xs 1 0 x

/-- `np.argmax` on any `NpVal`: a 0-d scalar array has exactly one flat
position, so numpy returns 0 for it. -/
def npArgmax : NpVal → ℕ
  | .scalar _ => 0
  | .vec l => argmax l

/-- `np.zeros_like`: a 0-d input yields a 0-d zero, a vector input yields a
zero vector of the same length. -/
def npZerosLike : NpVal → NpVal
  | .scalar _ => .scalar 0
  | .vec l => .vec (List.replicate l.length 0)

/-- The statement `arr[i] = v` followed by returning `arr`. Indexing a 0-d
array raises IndexError, as does an out-of-range index on a vector. -/
def npSetIndex : NpVal → ℕ → ℚ → Except String NpVal
  | .scalar _, _, _ => .error "IndexError: too many indices for array"
  | .vec l, i, v =>
    if i < l.length then .ok (.vec (l.set i v)) else .error "IndexError: index out of bounds"

/-- One draw of `np.random.choice` over indices weighted by `p`, driven by a
single uniform sample `r` from [0,1): the inverse-CDF map returning the first
index whose cumulative weight exceeds `r`, clamped to the last index. -/
def choiceIdx : List ℚ → ℚ → ℕ
  | [], _ => 0
  | [_], _ => 0
  | x :: y :: ys, r => if r < x then 0 else choiceIdx (y :: ys) (r - x) + 1

/-- The `GenerativeModel` class: the three attributes set by `__init__`. -/
structure GenerativeModel where
  world_size : ℕ
  states : List (List ℚ)
  transition_matrix : List (List ℚ)
deriving DecidableEq

/-- `np.eye n` as a list of rows. -/
def npEye (n : ℕ) : List (List ℚ) :=
  (List.range n).map (fun i => (List.range n).map (fun j => if i = j then 1 else 0))

/-- `_create_transition_matrix`: draw an n-by-n matrix of uniform samples
(`u i j` is the draw for entry (i, j)) and divide each row by its row sum,
exactly as `matrix / np.sum(matrix, axis=1, keepdims=True)` does. -/
def create_transition_matrix (n : ℕ) (u : ℕ → ℕ → ℚ) : List (List ℚ) :=
  (List.range n).map (fun i =>
    let row := (List.range n).map (fun j => u i j)
    row.map (fun x => x / row.sum))

/-- `__init__`: store the world size, the one-hot state table `np.eye`, and
the freshly drawn row-normalised transition matrix. -/
def GenerativeModel.init (world_size : ℕ) (u : ℕ → ℕ → ℚ) : GenerativeModel :=
  { world_size := world_size
    states := npEye world_size
    transition_matrix := create_transition_matrix world_size u }

/-- `sample_next_state`: decode the current state with `np.argmax`, look up
that row of the transition matrix (IndexError when out of range), draw an
index from it, and return a zero vector shaped like the input with that index
set to 1. `r` is the uniform sample driving the categorical draw. -/
def sample_next_state (M : GenerativeModel) (current_state : NpVal) (r : ℚ) :
    Except String NpVal :=
  let current_state_id := npArgmax current_state
  match M.transition_matrix[current_state_id]? with
  | none => Except.error "IndexError: index out of bounds"
  | some probabilities =>
    let next_state_id := choiceIdx probabilities r
    npSetIndex (npZerosLike current_state) next_state_id 1

/-- The loop of `run_simulation`, unrolled over the number of iterations of
`range`: start from the current state, sample repeatedly, and collect the
trajectory; a raised IndexError aborts the whole call. `rs i` is the uniform
sample driving the draw at step i. -/
def runSimAux (M : GenerativeModel) : NpVal → ℕ → (ℕ → ℚ) → Except String (List NpVal)
  | cur, 0, _ => .ok [cur]
  | cur, k + 1, rs =>
    match sample_next_state M cur (rs 0) with
    | .error e => .error e
    | .ok nxt =>
      match runSimAux M nxt k (fun i => rs (i + 1)) with
      | .error e => .error e
      | .ok traj => .ok (cur :: traj)

/-- `run_simulation`: `range num_steps` of a Python int is empty when
`num_steps` is not positive, so the loop runs `num_steps.toNat` times. -/
def run_simulation (M : GenerativeModel) (initial_state : NpVal) (num_steps : ℤ)
    (rs : ℕ → ℚ) : Except String (List NpVal) :=
  runSimAux M initial_state num_steps.toNat rs

/-- State-passing reading of the method `sample_next_state`: its body contains
no assignment to any attribute of `self` (only `__init__` assigns to `self`),
so the model comes back unchanged next to the result. -/
def sample_next_state_st (M : GenerativeModel) (current_state : NpVal) (r : ℚ) :
    Except String NpVal × GenerativeModel :=
  (sample_next_state M current_state r, M)

/-- State-passing reading of the method `run_simulation`: its body contains no
assignment to any attribute of `self`, so the model comes back unchanged next
to the trajectory. -/
def run_simulation_st (M : GenerativeModel) (initial_state : NpVal) (num_steps : ℤ)
    (rs : ℕ → ℚ) : Except String (List NpVal) × GenerativeModel :=
  (run_simulation M initial_state num_steps rs, M)

/-- The one-hot vector of length n with a 1 at index i. -/
def oneHot (n i : ℕ) : List ℚ := (List.replicate n (0 : ℚ)).set i 1

/-- A valid one-hot encoding of a state of an n-state world. -/
def isOneHot (n : ℕ) (l : List ℚ) : Prop := ∃ i, i < n ∧ l = oneHot n i

/-- A concrete uniform-draw function: every sample is 1/2. -/
def uHalf : ℕ → ℕ → ℚ := fun _ _ => 1 / 2

/-- A concrete uniform-draw function giving distinct rows: row 0 normalises to
[1/2, 1/2] and every other row to [1/4, 3/4] on a 2-state world. -/
def uTest : ℕ → ℕ → ℚ := fun i j => if i = 0 then 1 / 2 else if j = 0 then 1 / 4 else 3 / 4

/-- Row i of the stored transition matrix, as looked up by
`sample_next_state` (empty when out of range). -/
def rowOf (M : GenerativeModel) (i : ℕ) : List ℚ := M.transition_matrix.getD i []

/-! ### Arithmetic helper lemmas -/

lemma sum_map_div (l : List ℚ) (c : ℚ) : (l.map (fun x => x / c)).sum = l.sum / c := by
  induction l with
  | nil => simp
  | cons x xs ih => simp [ih, add_div]

lemma sum_take_nonneg {p : List ℚ} (hp : ∀ x ∈ p, 0 ≤ x) (j : ℕ) : 0 ≤ (p.take j).sum :=
  List.sum_nonneg fun x hx => hp x (List.take_subset j p hx)

/-! ### Facts about `choiceIdx` -/

lemma choiceIdx_lt_length : ∀ (p : List ℚ) (r : ℚ), p ≠ [] → choiceIdx p r < p.length
  | [], _, h => absurd rfl h
  | [_], _, _ => by simp [choiceIdx]
  | x :: y :: ys, r, _ => by
    rw [choiceIdx]
    split
    · simp
    · have := choiceIdx_lt_length (y :: ys) (r - x) (by simp)
      simpa [Nat.succ_lt_succ_iff] using this

/-- Inverse-CDF characterisation: the draw lands on index j exactly when the
uniform sample r falls in the half-open window between the cumulative weights
before and through j. -/
lemma choiceIdx_eq_iff :
    ∀ (p : List ℚ) (r : ℚ), (∀ x ∈ p, 0 ≤ x) → 0 ≤ r → r < p.sum →
      ∀ j, j < p.length →
        (choiceIdx p r = j ↔ (p.take j).sum ≤ r ∧ r < (p.take (j + 1)).sum)
  | [], r, _, hr0, hr1, j, hj => by simp at hj
  | [x], r, _, hr0, hr1, j, hj => by
    have hj0 : j = 0 := by simp at hj; omega
    subst hj0
    simpa [choiceIdx] using ⟨hr0, by simpa using hr1⟩
  | x :: y :: ys, r, hp, hr0, hr1, j, hj => by
    have hx : 0 ≤ x := hp x (by simp)
    rw [choiceIdx]
    split
    · rename_i hrx
      cases j with
      | zero => simpa using ⟨hr0, hrx⟩
      | succ j' =>
        have hnn : 0 ≤ ((y :: ys).take j').sum :=
          sum_take_nonneg (fun z hz => hp z (List.mem_cons_of_mem x hz)) j'
        simp only [List.take_succ_cons, List.sum_cons]
        constructor
        · intro h; exact absurd h (by omega)
        · rintro ⟨h1, -⟩; linarith
    · rename_i hrx
      push_neg at hrx
      cases j with
      | zero =>
        simp only [List.take_succ_cons, List.take_zero, List.sum_cons, List.sum_nil]
        constructor
        · intro h; exact absurd h (by omega)
        · rintro ⟨-, h2⟩; simp at h2; linarith
      | succ j' =>
        have hj' : j' < (y :: ys).length := by simpa [Nat.succ_lt_succ_iff] using hj
        have ih := choiceIdx_eq_iff (y :: ys) (r - x)
          (fun z hz => hp z (List.mem_cons_of_mem x hz))
          (by linarith)
          (by simp only [List.sum_cons] at hr1 ⊢; linarith)
          j' hj'
        simp only [List.take_succ_cons, List.sum_cons, Nat.add_right_cancel_iff, ih]
        constructor
        · rintro ⟨h1, h2⟩; exact ⟨by linarith, by linarith⟩
        · rintro ⟨h1, h2⟩; exact ⟨by linarith, by linarith⟩

/-! ### Facts about `argmax` -/

lemma argmaxAux_bound :
    ∀ (xs : List ℚ) (i best : ℕ) (bv : ℚ), best < i → argmaxAux xs i best bv < i + xs.length
  | [], i, best, bv, h => by simpa using h
  | x :: xs, i, best, bv, h => by
    rw [argmaxAux]
    split
    · have := argmaxAux_bound xs (i + 1) i x (Nat.lt_succ_self i)
      simpa [Nat.add_assoc, Nat.add_comm 1 xs.length] using this
    · have := argmaxAux_bound xs (i + 1) best bv (Nat.lt_succ_of_lt h)
      simpa [Nat.add_assoc, Nat.add_comm 1 xs.length] using this

lemma argmax_lt_length (l : List ℚ) (h : l ≠ []) : argmax l < l.length := by
  match l with
  | x :: xs =>
    have := argmaxAux_bound xs 1 0 x Nat.one_pos
    simpa [argmax, Nat.add_comm 1 xs.length] using this

lemma argmaxAux_of_not_lt :
    ∀ (xs : List ℚ) (i best : ℕ) (bv : ℚ), (∀ x ∈ xs, ¬ bv < x) → argmaxAux xs i best bv = best
  | [], _, _, _, _ => rfl
  | x :: xs, i, best, bv, h => by
    rw [argmaxAux, if_neg (h x (by simp))]
    exact argmaxAux_of_not_lt xs (i + 1) best bv fun z hz => h z (List.mem_cons_of_mem x hz)

lemma argmaxAux_append (xs : List ℚ) :
    ∀ (ys : List ℚ) (i best : ℕ) (bv : ℚ), (∀ x ∈ xs, ¬ bv < x) →
      argmaxAux (xs ++ ys) i best bv = argmaxAux ys (i + xs.length) best bv := by
  induction xs with
  | nil => intro ys i best bv _; simp
  | cons x xs ih =>
    intro ys i best bv h
    rw [List.cons_append, argmaxAux, if_neg (h x (by simp))]
    rw [ih ys (i + 1) best bv fun z hz => h z (List.mem_cons_of_mem x hz)]
    congr 1
    simp [Nat.add_assoc, Nat.add_comm 1 xs.length]

lemma argmax_replicate_zero (m : ℕ) : argmax (List.replicate m (0 : ℚ)) = 0 := by
  cases m with
  | zero => rfl
  | succ m' =>
    rw [List.replicate_succ, argmax]
    exact argmaxAux_of_not_lt _ 1 0 0 (by intro z hz; rw [List.eq_of_mem_replicate hz]; simp)

lemma oneHot_eq_append {n i : ℕ} (h : i < n) :
    oneHot n i = List.replicate i (0 : ℚ) ++ 1 :: List.replicate (n - (i + 1)) (0 : ℚ) := by
  rw [oneHot, List.set_eq_take_cons_drop 1 (by simpa using h)]
  rw [List.take_replicate, List.drop_replicate, Nat.min_eq_left (Nat.le_of_lt h)]

lemma length_oneHot (n i : ℕ) : (oneHot n i).length = n := by
  simp [oneHot]

lemma argmax_oneHot {n i : ℕ} (h : i < n) : argmax (oneHot n i) = i := by
  rw [oneHot_eq_append h]
  cases i with
  | zero =>
    rw [List.replicate_zero, List.nil_append, argmax]
    exact argmaxAux_of_not_lt _ 1 0 1
      (by intro z hz; rw [List.eq_of_mem_replicate hz]; norm_num)
  | succ i' =>
    rw [List.replicate_succ, List.cons_append, argmax]
    rw [show List.replicate i' (0:ℚ) ++ 1 :: List.replicate (n - (i' + 1 + 1)) (0:ℚ) =
      List.replicate i' (0:ℚ) ++ (1 :: List.replicate (n - (i' + 1 + 1)) (0:ℚ)) from rfl]
    rw [argmaxAux_append _ _ 1 0 0
      (by intro z hz; rw [List.eq_of_mem_replicate hz]; simp)]
    rw [argmaxAux, if_pos (by norm_num)]
    rw [argmaxAux_of_not_lt _ _ _ _
      (by intro z hz; rw [List.eq_of_mem_replicate hz]; norm_num)]
    simp [List.length_replicate, Nat.add_comm]

lemma getElem_oneHot_self {n i : ℕ} (h : i < n) : (oneHot n i).getD i 0 = 1 := by
  rw [oneHot, List.getD_eq_getElem?_getD, List.getElem?_set_self (by simpa using h)]
  simp

lemma getElem_oneHot_ne {n i j : ℕ} (hj : j < n) (hne : i ≠ j) : (oneHot n i).getD j 0 = 0 := by
  rw [oneHot, List.getD_eq_getElem?_getD, List.getElem?_set_ne hne]
  simp [List.getElem?_replicate, hj]

lemma oneHot_inj {n i j : ℕ} (hi : i < n) (hj : j < n) (h : oneHot n i = oneHot n j) :
    i = j := by
  by_contra hne
  have h1 : (oneHot n i).getD i 0 = 1 := getElem_oneHot_self hi
  have h2 : (oneHot n j).getD i 0 = 0 := getElem_oneHot_ne hi (fun hji => hne hji.symm)
  rw [h, h2] at h1
  norm_num at h1

/-! ### Facts about the constructed transition matrix -/

lemma matrix_length (n : ℕ) (u : ℕ → ℕ → ℚ) : (create_transition_matrix n u).length = n := by
  simp [create_transition_matrix]

lemma rowOf_init (M : GenerativeModel) (i : ℕ) :
    rowOf M i = M.transition_matrix.getD i [] := rfl

lemma init_matrix_length (n : ℕ) (u : ℕ → ℕ → ℚ) :
    (GenerativeModel.init n u).transition_matrix.length = n := by
  simp [GenerativeModel.init, create_transition_matrix]

lemma rowOf_init_eq {n i : ℕ} (u : ℕ → ℕ → ℚ) (h : i < n) :
    rowOf (GenerativeModel.init n u) i =
      ((List.range n).map (u i)).map
        (fun x => x / ((List.range n).map (u i)).sum) := by
  have hlen : i < (create_transition_matrix n u).length := by rw [matrix_length]; exact h
  rw [rowOf_init]
  show (create_transition_matrix n u).getD i [] = _
  rw [List.getD_eq_getElem _ _ hlen]
  simp [create_transition_matrix, h]

lemma rowOf_init_length {n i : ℕ} (u : ℕ → ℕ → ℚ) (h : i < n) :
    (rowOf (GenerativeModel.init n u) i).length = n := by
  rw [rowOf_init_eq u h]; simp

lemma rowOf_init_sum {n i : ℕ} (u : ℕ → ℕ → ℚ) (h : i < n)
    (hpos : 0 < ((List.range n).map (u i)).sum) :
    (rowOf (GenerativeModel.init n u) i).sum = 1 := by
  rw [rowOf_init_eq u h, sum_map_div, div_self (ne_of_gt hpos)]

lemma rowOf_init_nonneg {n i : ℕ} (u : ℕ → ℕ → ℚ) (h : i < n)
    (hu : ∀ j, 0 ≤ u i j) (hpos : 0 ≤ ((List.range n).map (u i)).sum) :
    ∀ x ∈ rowOf (GenerativeModel.init n u) i, 0 ≤ x := by
  rw [rowOf_init_eq u h]
  intro x hx
  rcases List.mem_map.mp hx with ⟨a, ha, rfl⟩
  rcases List.mem_map.mp ha with ⟨j, -, rfl⟩
  exact div_nonneg (hu j) hpos

lemma init_rows_length (n : ℕ) (u : ℕ → ℕ → ℚ) :
    ∀ row ∈ (GenerativeModel.init n u).transition_matrix, row.length = n := by
  intro row hrow
  show row.length = n
  rcases List.mem_map.mp hrow with ⟨i, -, rfl⟩
  simp

/-! ### Behaviour of `sample_next_state` on vector inputs -/

lemma sample_vec_eq (M : GenerativeModel) (s : List ℚ) (r : ℚ)
    (hid : argmax s < M.transition_matrix.length) :
    sample_next_state M (.vec s) r =
      npSetIndex (.vec (List.replicate s.length 0)) (choiceIdx (rowOf M (argmax s)) r) 1 := by
  have hrow : M.transition_matrix[argmax s]? = some (rowOf M (argmax s)) := by
    rw [List.getElem?_eq_getElem hid, rowOf_init, List.getD_eq_getElem _ _ hid]
  simp only [sample_next_state, npArgmax, hrow, npZerosLike]

lemma sample_vec_ok (M : GenerativeModel) (s : List ℚ) (r : ℚ)
    (hid : argmax s < M.transition_matrix.length)
    (hlt : choiceIdx (rowOf M (argmax s)) r < s.length) :
    sample_next_state M (.vec s) r =
      .ok (.vec ((List.replicate s.length 0).set (choiceIdx (rowOf M (argmax s)) r) 1)) := by
  rw [sample_vec_eq M s r hid, npSetIndex]
  simp [hlt]

lemma rowOf_mem (M : GenerativeModel) (i : ℕ) (h : i < M.transition_matrix.length) :
    rowOf M i ∈ M.transition_matrix := by
  rw [rowOf_init, List.getD_eq_getElem _ _ h]
  exact List.getElem_mem h

lemma sample_oneHot_ok (n : ℕ) (M : GenerativeModel) (hn : 1 ≤ n)
    (hlen : M.transition_matrix.length = n)
    (hrows : ∀ row ∈ M.transition_matrix, row.length = n)
    (s : List ℚ) (hs : s.length = n) (r : ℚ) :
    ∃ j, j < n ∧ sample_next_state M (.vec s) r = .ok (.vec (oneHot n j)) := by
  have hne : s ≠ [] := by
    intro h; rw [h] at hs; simp at hs; omega
  have hid : argmax s < M.transition_matrix.length := by
    rw [hlen, ← hs]; exact argmax_lt_length s hne
  have hrowlen : (rowOf M (argmax s)).length = n := hrows _ (rowOf_mem M _ hid)
  have hrow_ne : rowOf M (argmax s) ≠ [] := by
    intro h; rw [h] at hrowlen; simp at hrowlen; omega
  have hcl : choiceIdx (rowOf M (argmax s)) r < n := by
    rw [← hrowlen]; exact choiceIdx_lt_length _ r hrow_ne
  refine ⟨choiceIdx (rowOf M (argmax s)) r, hcl, ?_⟩
  rw [sample_vec_ok M s r hid (by rw [hs]; exact hcl), hs]
  rfl

/-! ### Behaviour of the simulation loop -/

lemma runSim_ok (n : ℕ) (M : GenerativeModel) (hn : 1 ≤ n)
    (hlen : M.transition_matrix.length = n)
    (hrows : ∀ row ∈ M.transition_matrix, row.length = n) :
    ∀ (k : ℕ) (s : List ℚ) (rs : ℕ → ℚ), s.length = n →
      ∃ rest, runSimAux M (.vec s) k rs = .ok (.vec s :: rest) ∧
        rest.length = k ∧
        (∀ x ∈ rest, ∃ j, j < n ∧ x = NpVal.vec (oneHot n j)) ∧
        (∀ i, i < k → sample_next_state M ((NpVal.vec s :: rest).getD i (.vec [])) (rs i) =
          .ok ((NpVal.vec s :: rest).getD (i + 1) (.vec []))) := by
  intro k
  induction k with
  | zero =>
    intro s rs hs
    exact ⟨[], rfl, rfl, by simp, by intro i hi; omega⟩
  | succ k ih =>
    intro s rs hs
    obtain ⟨j, hj, hsample⟩ := sample_oneHot_ok n M hn hlen hrows s hs (rs 0)
    obtain ⟨rest', heq, hlen', hmem', hstep'⟩ :=
      ih (oneHot n j) (fun i => rs (i + 1)) (length_oneHot n j)
    refine ⟨.vec (oneHot n j) :: rest', ?_, by simp [hlen'], ?_, ?_⟩
    · rw [runSimAux, hsample]
      simp [heq]
    · intro x hx
      rcases List.mem_cons.mp hx with h | h
      · exact ⟨j, hj, h⟩
      · exact hmem' x h
    · intro i hi
      cases i with
      | zero => simpa using hsample
      | succ i' =>
        have := hstep' i' (by omega)
        simpa using this

lemma sum_take_le {p : List ℚ} (hp : ∀ x ∈ p, 0 ≤ x) (m : ℕ) : (p.take m).sum ≤ p.sum := by
  conv_rhs => rw [← List.take_append_drop m p]
  rw [List.sum_append]
  have h0 : 0 ≤ (p.drop m).sum := List.sum_nonneg fun x hx => hp x (List.drop_subset m p hx)
  linarith

lemma sum_take_succ_getD {p : List ℚ} {j : ℕ} (h : j < p.length) :
    (p.take (j + 1)).sum = (p.take j).sum + p.getD j 0 := by
  rw [List.sum_take_succ p j h, List.getD_eq_getElem _ _ h]

lemma mem_matrix_eq_rowOf {n : ℕ} (u : ℕ → ℕ → ℚ) {row : List ℚ}
    (hrow : row ∈ (GenerativeModel.init n u).transition_matrix) :
    ∃ i, i < n ∧ row = rowOf (GenerativeModel.init n u) i := by
  rcases List.mem_map.mp hrow with ⟨i, hi, rfl⟩
  refine ⟨i, List.mem_range.mp hi, ?_⟩
  rw [rowOf_init_eq u (List.mem_range.mp hi)]

lemma sample_scalar_err (M : GenerativeModel) (q r : ℚ) (h : 0 < M.transition_matrix.length) :
    sample_next_state M (.scalar q) r = .error "IndexError: too many indices for array" := by
  have hrow : M.transition_matrix[(0 : ℕ)]? = some (rowOf M 0) := by
    rw [List.getElem?_eq_getElem h, rowOf_init, List.getD_eq_getElem _ _ h]
  simp only [sample_next_state, npArgmax, hrow, npZerosLike, npSetIndex]

/-! ## The claims -/

/-- C1: for every world size n ≥ 1, with each matrix entry drawn from
[0,1) and no row of draws summing to zero (an event of probability zero for
uniform draws, under which numpy would divide by zero), the transition matrix
built at construction is n-by-n, every entry is nonnegative, and every row
sums to 1 — exactly so in the rational idealisation of float arithmetic. -/
theorem transition_matrix_rows_stochastic (n : ℕ) (hn : 1 ≤ n) (u : ℕ → ℕ → ℚ)
    (hu0 : ∀ i j, 0 ≤ u i j) (hu1 : ∀ i j, u i j < 1)
    (hpos : ∀ i, i < n → 0 < ((List.range n).map (u i)).sum) :
    (GenerativeModel.init n u).transition_matrix.length = n ∧
    (∀ row ∈ (GenerativeModel.init n u).transition_matrix, row.length = n) ∧
    (∀ row ∈ (GenerativeModel.init n u).transition_matrix, ∀ x ∈ row, 0 ≤ x) ∧
    (∀ row ∈ (GenerativeModel.init n u).transition_matrix, row.sum = 1) := by
  refine ⟨matrix_length n u, init_rows_length n u, ?_, ?_⟩
  · intro row hrow
    obtain ⟨i, hi, rfl⟩ := mem_matrix_eq_rowOf u hrow
    exact rowOf_init_nonneg u hi (fun j => hu0 i j) (le_of_lt (hpos i hi))
  · intro row hrow
    obtain ⟨i, hi, rfl⟩ := mem_matrix_eq_rowOf u hrow
    exact rowOf_init_sum u hi (hpos i hi)

/-- Witness for C1 at n = 2 with all draws equal to 1/2. -/
theorem transition_matrix_rows_stochastic_witness :
    ((1 : ℕ) ≤ 2 ∧ (∀ i j, 0 ≤ uHalf i j) ∧ (∀ i j, uHalf i j < 1) ∧
      (∀ i, i < 2 → 0 < ((List.range 2).map (uHalf i)).sum)) ∧
    ((GenerativeModel.init 2 uHalf).transition_matrix.length = 2 ∧
     (∀ row ∈ (GenerativeModel.init 2 uHalf).transition_matrix, row.length = 2) ∧
     (∀ row ∈ (GenerativeModel.init 2 uHalf).transition_matrix, ∀ x ∈ row, 0 ≤ x) ∧
     (∀ row ∈ (GenerativeModel.init 2 uHalf).transition_matrix, row.sum = 1)) := by
  have h0 : ∀ i j, 0 ≤ uHalf i j := fun i j => by norm_num [uHalf]
  have h1 : ∀ i j, uHalf i j < 1 := fun i j => by norm_num [uHalf]
  have h2 : ∀ i, i < 2 → 0 < ((List.range 2).map (uHalf i)).sum := fun i _ => by
    norm_num [uHalf, List.range_succ]
  exact ⟨⟨by norm_num, h0, h1, h2⟩,
    transition_matrix_rows_stochastic 2 (by norm_num) uHalf h0 h1 h2⟩

/-- C2: for every valid one-hot initial state and every number of steps
k ≥ 0, `run_simulation` returns a trajectory of exactly k + 1 states whose
first element is the initial state; with k = 0 it returns exactly the
singleton trajectory. -/
theorem run_simulation_length_and_head (n : ℕ) (u : ℕ → ℕ → ℚ) (hn : 1 ≤ n)
    (s0 : List ℚ) (hs0 : isOneHot n s0) (k : ℕ) (rs : ℕ → ℚ) :
    (∃ traj, run_simulation (GenerativeModel.init n u) (.vec s0) (k : ℤ) rs = .ok traj ∧
      traj.length = k + 1 ∧ traj.head? = some (.vec s0)) ∧
    run_simulation (GenerativeModel.init n u) (.vec s0) 0 rs = .ok [.vec s0] := by
  obtain ⟨i, hi, rfl⟩ := hs0
  obtain ⟨rest, heq, hlen, -, -⟩ :=
    runSim_ok n (GenerativeModel.init n u) hn (matrix_length n u) (init_rows_length n u)
      k (oneHot n i) rs (length_oneHot n i)
  refine ⟨⟨.vec (oneHot n i) :: rest, ?_, by simp [hlen], rfl⟩, rfl⟩
  rw [run_simulation, Int.toNat_natCast]
  exact heq

/-- Witness for C2 at n = 2, initial state one-hot at index 0, 3 steps. -/
theorem run_simulation_length_and_head_witness :
    ((1 : ℕ) ≤ 2 ∧ isOneHot 2 (oneHot 2 0)) ∧
    ((∃ traj, run_simulation (GenerativeModel.init 2 uHalf) (.vec (oneHot 2 0)) ((3 : ℕ) : ℤ)
        (fun _ => 0) = .ok traj ∧ traj.length = 3 + 1 ∧ traj.head? = some (.vec (oneHot 2 0))) ∧
      run_simulation (GenerativeModel.init 2 uHalf) (.vec (oneHot 2 0)) 0 (fun _ => 0) =
        .ok [.vec (oneHot 2 0)]) := by
  have hs : isOneHot 2 (oneHot 2 0) := ⟨0, by norm_num, rfl⟩
  exact ⟨⟨by norm_num, hs⟩,
    run_simulation_length_and_head 2 uHalf (by norm_num) (oneHot 2 0) hs 3 (fun _ => 0)⟩

lemma sample_oneHot_eq_iff (n : ℕ) (u : ℕ → ℕ → ℚ) {i j : ℕ} (hi : i < n) (hj : j < n)
    (r : ℚ) :
    sample_next_state (GenerativeModel.init n u) (.vec (oneHot n i)) r =
        .ok (.vec (oneHot n j)) ↔
      choiceIdx (rowOf (GenerativeModel.init n u) i) r = j := by
  have hplen : (rowOf (GenerativeModel.init n u) i).length = n := rowOf_init_length u hi
  have hne : rowOf (GenerativeModel.init n u) i ≠ [] := by
    intro h; rw [h] at hplen; simp at hplen; omega
  have hcl : choiceIdx (rowOf (GenerativeModel.init n u) i) r < n := by
    have h := choiceIdx_lt_length (rowOf (GenerativeModel.init n u) i) r hne
    omega
  have harg : argmax (oneHot n i) = i := argmax_oneHot hi
  have hid : argmax (oneHot n i) < (GenerativeModel.init n u).transition_matrix.length := by
    rw [harg, init_matrix_length]; exact hi
  have hs := sample_vec_ok (GenerativeModel.init n u) (oneHot n i) r hid
    (by rw [harg, length_oneHot]; exact hcl)
  rw [harg, length_oneHot] at hs
  rw [hs]
  simp only [Except.ok.injEq, NpVal.vec.injEq]
  show oneHot n (choiceIdx (rowOf (GenerativeModel.init n u) i) r) = oneHot n j ↔ _
  constructor
  · exact fun h => oneHot_inj hcl hj h
  · exact fun h => by rw [h]

/-- C3: sampling from a valid current state with decoded index i draws
next-state index j with probability exactly the stored transition-matrix
entry at row i, column j: over the uniform sample r driving the draw, the set
of r in [0,1) on which the sampled next state is the one-hot of j is exactly
the half-open interval of cumulative row weights whose width is the stored
entry `(rowOf M i).getD j 0` (second conjunct: that width reaches the next
cumulative weight, so consecutive windows tile [0,1)). -/
theorem sample_next_state_exact_distribution (n : ℕ) (u : ℕ → ℕ → ℚ)
    (hu0 : ∀ i j, 0 ≤ u i j)
    (hpos : ∀ i, i < n → 0 < ((List.range n).map (u i)).sum)
    (i j : ℕ) (hi : i < n) (hj : j < n) :
    {r : ℚ | 0 ≤ r ∧ r < 1 ∧
        sample_next_state (GenerativeModel.init n u) (.vec (oneHot n i)) r =
          .ok (.vec (oneHot n j))} =
      Set.Ico (((rowOf (GenerativeModel.init n u) i).take j).sum)
        (((rowOf (GenerativeModel.init n u) i).take j).sum +
          (rowOf (GenerativeModel.init n u) i).getD j 0) ∧
    (((rowOf (GenerativeModel.init n u) i).take j).sum +
        (rowOf (GenerativeModel.init n u) i).getD j 0 =
      ((rowOf (GenerativeModel.init n u) i).take (j + 1)).sum) := by
  have hplen : (rowOf (GenerativeModel.init n u) i).length = n := rowOf_init_length u hi
  have hpnn : ∀ x ∈ rowOf (GenerativeModel.init n u) i, 0 ≤ x :=
    rowOf_init_nonneg u hi (fun jj => hu0 i jj) (le_of_lt (hpos i hi))
  have hpsum : (rowOf (GenerativeModel.init n u) i).sum = 1 := rowOf_init_sum u hi (hpos i hi)
  have hjp : j < (rowOf (GenerativeModel.init n u) i).length := by rw [hplen]; exact hj
  have he := sum_take_succ_getD hjp
  refine ⟨?_, he.symm⟩
  ext r
  simp only [Set.mem_setOf_eq, Set.mem_Ico]
  constructor
  · rintro ⟨hr0, hr1, hsamp⟩
    have hc : choiceIdx (rowOf (GenerativeModel.init n u) i) r = j :=
      (sample_oneHot_eq_iff n u hi hj r).mp hsamp
    have hw := (choiceIdx_eq_iff _ r hpnn hr0 (by rw [hpsum]; exact hr1) j hjp).mp hc
    exact ⟨hw.1, by linarith [hw.2]⟩
  · rintro ⟨h1, h2⟩
    have hr0 : 0 ≤ r := le_trans (sum_take_nonneg hpnn j) h1
    have hle := sum_take_le hpnn (j + 1)
    rw [hpsum] at hle
    have hr1 : r < 1 := by linarith
    have hc : choiceIdx (rowOf (GenerativeModel.init n u) i) r = j :=
      (choiceIdx_eq_iff _ r hpnn hr0 (by rw [hpsum]; exact hr1) j hjp).mpr
        ⟨h1, by linarith⟩
    exact ⟨hr0, hr1, (sample_oneHot_eq_iff n u hi hj r).mpr hc⟩

/-- Witness for C3 at n = 2 with distinct rows, current state index 1,
target index 1: the window is [1/4, 1/4 + 3/4). -/
theorem sample_next_state_exact_distribution_witness :
    ((∀ i j, 0 ≤ uTest i j) ∧ (∀ i, i < 2 → 0 < ((List.range 2).map (uTest i)).sum) ∧
      (1 : ℕ) < 2) ∧
    ({r : ℚ | 0 ≤ r ∧ r < 1 ∧
        sample_next_state (GenerativeModel.init 2 uTest) (.vec (oneHot 2 1)) r =
          .ok (.vec (oneHot 2 1))} =
      Set.Ico (((rowOf (GenerativeModel.init 2 uTest) 1).take 1).sum)
        (((rowOf (GenerativeModel.init 2 uTest) 1).take 1).sum +
          (rowOf (GenerativeModel.init 2 uTest) 1).getD 1 0) ∧
    (((rowOf (GenerativeModel.init 2 uTest) 1).take 1).sum +
        (rowOf (GenerativeModel.init 2 uTest) 1).getD 1 0 =
      ((rowOf (GenerativeModel.init 2 uTest) 1).take (1 + 1)).sum)) := by
  have h0 : ∀ i j, 0 ≤ uTest i j := by
    intro i j
    simp only [uTest]
    split
    · norm_num
    · split <;> norm_num
  have h2 : ∀ i, i < 2 → 0 < ((List.range 2).map (uTest i)).sum := by
    intro i hi
    interval_cases i <;> norm_num [uTest, List.range_succ]
  exact ⟨⟨h0, h2, by norm_num⟩,
    sample_next_state_exact_distribution 2 uTest h0 h2 1 1 (by norm_num) (by norm_num)⟩

/-- C4: on every valid one-hot input of length n, `sample_next_state` returns
a valid one-hot vector whose set index lies in [0, n); consequently every
element of every trajectory returned by `run_simulation` from a valid one-hot
initial state is a valid one-hot vector in range. -/
theorem sample_and_trajectory_one_hot (n : ℕ) (u : ℕ → ℕ → ℚ) (hn : 1 ≤ n) :
    (∀ (s : List ℚ) (r : ℚ), isOneHot n s →
      ∃ j, j < n ∧ sample_next_state (GenerativeModel.init n u) (.vec s) r =
        .ok (.vec (oneHot n j)) ∧ isOneHot n (oneHot n j)) ∧
    (∀ (s0 : List ℚ) (k : ℕ) (rs : ℕ → ℚ), isOneHot n s0 →
      ∃ traj, run_simulation (GenerativeModel.init n u) (.vec s0) (k : ℤ) rs = .ok traj ∧
        ∀ x ∈ traj, ∃ l, x = NpVal.vec l ∧ isOneHot n l) := by
  constructor
  · rintro s r ⟨i, hi, rfl⟩
    obtain ⟨j, hj, hs⟩ := sample_oneHot_ok n (GenerativeModel.init n u) hn
      (matrix_length n u) (init_rows_length n u) (oneHot n i) (length_oneHot n i) r
    exact ⟨j, hj, hs, ⟨j, hj, rfl⟩⟩
  · rintro s0 k rs ⟨i, hi, rfl⟩
    obtain ⟨rest, heq, -, hmem, -⟩ :=
      runSim_ok n (GenerativeModel.init n u) hn (matrix_length n u) (init_rows_length n u)
        k (oneHot n i) rs (length_oneHot n i)
    refine ⟨.vec (oneHot n i) :: rest, ?_, ?_⟩
    · rw [run_simulation, Int.toNat_natCast]; exact heq
    · intro x hx
      rcases List.mem_cons.mp hx with h | h
      · exact ⟨oneHot n i, h, ⟨i, hi, rfl⟩⟩
      · obtain ⟨j, hj, rfl⟩ := hmem x h
        exact ⟨oneHot n j, rfl, ⟨j, hj, rfl⟩⟩

/-- Witness for C4 at n = 2. -/
theorem sample_and_trajectory_one_hot_witness :
    ((1 : ℕ) ≤ 2) ∧
    ((∀ (s : List ℚ) (r : ℚ), isOneHot 2 s →
      ∃ j, j < 2 ∧ sample_next_state (GenerativeModel.init 2 uHalf) (.vec s) r =
        .ok (.vec (oneHot 2 j)) ∧ isOneHot 2 (oneHot 2 j)) ∧
    (∀ (s0 : List ℚ) (k : ℕ) (rs : ℕ → ℚ), isOneHot 2 s0 →
      ∃ traj, run_simulation (GenerativeModel.init 2 uHalf) (.vec s0) (k : ℤ) rs = .ok traj ∧
        ∀ x ∈ traj, ∃ l, x = NpVal.vec l ∧ isOneHot 2 l)) :=
  ⟨by norm_num, sample_and_trajectory_one_hot 2 uHalf (by norm_num)⟩

/-- C5: each state of the trajectory is sampled using only the immediately
preceding trajectory element: for every i < k, element i + 1 is exactly
`sample_next_state` applied to element i with the step-i uniform sample, so
no earlier element influences the draw (the Markov property). -/
theorem run_simulation_markov_property (n : ℕ) (u : ℕ → ℕ → ℚ) (hn : 1 ≤ n)
    (s0 : List ℚ) (hs0 : isOneHot n s0) (k : ℕ) (rs : ℕ → ℚ) :
    ∃ traj, run_simulation (GenerativeModel.init n u) (.vec s0) (k : ℤ) rs = .ok traj ∧
      traj.length = k + 1 ∧
      ∀ i, i < k →
        sample_next_state (GenerativeModel.init n u) (traj.getD i (.vec [])) (rs i) =
          .ok (traj.getD (i + 1) (.vec [])) := by
  obtain ⟨i, hi, rfl⟩ := hs0
  obtain ⟨rest, heq, hlen, -, hstep⟩ :=
    runSim_ok n (GenerativeModel.init n u) hn (matrix_length n u) (init_rows_length n u)
      k (oneHot n i) rs (length_oneHot n i)
  refine ⟨.vec (oneHot n i) :: rest, ?_, by simp [hlen], hstep⟩
  rw [run_simulation, Int.toNat_natCast]
  exact heq

/-- Witness for C5 at n = 2, 2 steps. -/
theorem run_simulation_markov_property_witness :
    ((1 : ℕ) ≤ 2 ∧ isOneHot 2 (oneHot 2 1)) ∧
    (∃ traj, run_simulation (GenerativeModel.init 2 uHalf) (.vec (oneHot 2 1)) ((2 : ℕ) : ℤ)
        (fun _ => 0) = .ok traj ∧
      traj.length = 2 + 1 ∧
      ∀ i, i < 2 →
        sample_next_state (GenerativeModel.init 2 uHalf) (traj.getD i (.vec [])) ((fun _ => (0:ℚ)) i) =
          .ok (traj.getD (i + 1) (.vec []))) := by
  have hs : isOneHot 2 (oneHot 2 1) := ⟨1, by norm_num, rfl⟩
  exact ⟨⟨by norm_num, hs⟩,
    run_simulation_markov_property 2 uHalf (by norm_num) (oneHot 2 1) hs 2 (fun _ => 0)⟩

/-- C6 counterexample: the code does not fail on any of the three misuses.
Constructing with world_size 0 returns a model with an empty matrix,
`run_simulation` with num_steps -1 returns the singleton trajectory (the
Python range is empty), and `sample_next_state` on the malformed all-zero
vector returns a one-hot result drawn from row 0. -/
theorem invalid_inputs_do_not_fail_cex :
    GenerativeModel.init 0 uHalf =
      { world_size := 0, states := [], transition_matrix := [] } ∧
    run_simulation (GenerativeModel.init 2 uHalf) (.vec [1, 0]) (-1) (fun _ => 0) =
      .ok [.vec [1, 0]] ∧
    sample_next_state (GenerativeModel.init 2 uHalf) (.vec [0, 0]) 0 = .ok (.vec [1, 0]) := by
  refine ⟨?_, rfl, ?_⟩
  · simp [GenerativeModel.init, npEye, create_transition_matrix]
  · norm_num [sample_next_state, GenerativeModel.init, create_transition_matrix, uHalf,
      List.range_succ, npArgmax, argmax, argmaxAux, choiceIdx, npZerosLike, npSetIndex,
      List.replicate_succ]

/-- C6 amended: none of the three misuses raises an error. Construction with
world_size 0 returns a degenerate model with empty state table and matrix;
`run_simulation` with num_steps -1 returns exactly the initial state, for any
model and any initial value; and `sample_next_state` on the malformed
all-zero vector of length n ≥ 1 silently returns a valid one-hot sample. -/
theorem invalid_inputs_do_not_fail_amended (n : ℕ) (u : ℕ → ℕ → ℚ) (hn : 1 ≤ n)
    (M0 : GenerativeModel) (s : NpVal) (rs : ℕ → ℚ) (r : ℚ) :
    GenerativeModel.init 0 u =
      { world_size := 0, states := [], transition_matrix := [] } ∧
    run_simulation M0 s (-1) rs = .ok [s] ∧
    ∃ j, j < n ∧
      sample_next_state (GenerativeModel.init n u) (.vec (List.replicate n 0)) r =
        .ok (.vec (oneHot n j)) := by
  refine ⟨?_, rfl, ?_⟩
  · simp [GenerativeModel.init, npEye, create_transition_matrix]
  · exact sample_oneHot_ok n _ hn (matrix_length n u) (init_rows_length n u)
      (List.replicate n 0) (by simp) r

/-- Witness for the amended C6 at n = 2. -/
theorem invalid_inputs_do_not_fail_amended_witness :
    ((1 : ℕ) ≤ 2) ∧
    (GenerativeModel.init 0 uHalf =
      { world_size := 0, states := [], transition_matrix := [] } ∧
    run_simulation (GenerativeModel.init 2 uHalf) (.vec [1, 0]) (-1) (fun _ => 0) =
      .ok [.vec [1, 0]] ∧
    ∃ j, j < 2 ∧
      sample_next_state (GenerativeModel.init 2 uHalf) (.vec (List.replicate 2 0)) 0 =
        .ok (.vec (oneHot 2 j))) :=
  ⟨by norm_num, invalid_inputs_do_not_fail_amended 2 uHalf (by norm_num)
    (GenerativeModel.init 2 uHalf) (.vec [1, 0]) (fun _ => 0) 0⟩

/-- C7 counterexample: the malformed input [0, 1, 1] (two nonzero entries) is
not treated as state index 0: argmax decodes it to 1, the draw at r = 3/8
consults row 1 of the matrix [[1/2, 1/2], [1/4, 3/4]] and yields index 1
(result [0, 1, 0]), whereas a draw from row 0 at the same r yields index 0. -/
theorem malformed_not_row_zero_cex :
    sample_next_state (GenerativeModel.init 2 uTest) (.vec [0, 1, 1]) (3/8) =
      .ok (.vec [0, 1, 0]) ∧
    choiceIdx (rowOf (GenerativeModel.init 2 uTest) 0) (3/8) = 0 ∧
    npArgmax (.vec [0, 1, 1]) = 1 := by
  refine ⟨?_, ?_, ?_⟩ <;>
    norm_num [sample_next_state, GenerativeModel.init, create_transition_matrix, uTest,
      List.range_succ, npArgmax, argmax, argmaxAux, choiceIdx, npZerosLike, npSetIndex,
      List.replicate_succ, rowOf]

/-- C7 amended: a malformed current state is decoded silently by argmax (the
index of the first maximum, which is 0 for the all-zero vector but not in
general), and sampling proceeds from that row without any failure. -/
theorem malformed_sampled_via_argmax_amended (n m : ℕ) (u : ℕ → ℕ → ℚ)
    (s : List ℚ) (r : ℚ) (hm : argmax s < n) (hlen : n ≤ s.length) :
    sample_next_state (GenerativeModel.init n u) (.vec s) r =
      .ok (.vec ((List.replicate s.length 0).set
        (choiceIdx (rowOf (GenerativeModel.init n u) (argmax s)) r) 1)) ∧
    argmax (List.replicate m (0 : ℚ)) = 0 := by
  constructor
  · have hid : argmax s < (GenerativeModel.init n u).transition_matrix.length := by
      rw [init_matrix_length]; exact hm
    have hrowlen : (rowOf (GenerativeModel.init n u) (argmax s)).length = n :=
      rowOf_init_length u hm
    have hne : rowOf (GenerativeModel.init n u) (argmax s) ≠ [] := by
      intro h; rw [h] at hrowlen; simp at hrowlen; omega
    have hcl := choiceIdx_lt_length (rowOf (GenerativeModel.init n u) (argmax s)) r hne
    exact sample_vec_ok _ s r hid (by omega)
  · exact argmax_replicate_zero m

/-- Witness for the amended C7 on the malformed input [0, 1, 1]. -/
theorem malformed_sampled_via_argmax_amended_witness :
    (argmax [0, 1, 1] < 2 ∧ 2 ≤ ([0, 1, 1] : List ℚ).length) ∧
    (sample_next_state (GenerativeModel.init 2 uTest) (.vec [0, 1, 1]) (3/8) =
      .ok (.vec ((List.replicate ([0, 1, 1] : List ℚ).length 0).set
        (choiceIdx (rowOf (GenerativeModel.init 2 uTest) (argmax [0, 1, 1])) (3/8)) 1)) ∧
    argmax (List.replicate 5 (0 : ℚ)) = 0) := by
  have h1 : argmax [0, 1, 1] < 2 := by norm_num [argmax, argmaxAux]
  have h2 : 2 ≤ ([0, 1, 1] : List ℚ).length := by norm_num
  exact ⟨⟨h1, h2⟩, malformed_sampled_via_argmax_amended 2 5 uTest [0, 1, 1] (3/8) h1 h2⟩

/-- C8 counterexample: calling `sample_next_state` with the plain integer 1 on
a 2-state model does not sample from row 1: numpy's argmax of the 0-d scalar
is 0, and the assignment into the 0-d `zeros_like` result raises IndexError,
so the call fails instead of returning a sample. -/
theorem integer_state_not_row_k_cex :
    sample_next_state (GenerativeModel.init 2 uTest) (.scalar 1) (1/2) =
      .error "IndexError: too many indices for array" ∧
    npArgmax (.scalar 1) = 0 := by
  exact ⟨sample_scalar_err _ 1 (1/2) (by rw [init_matrix_length]; norm_num), rfl⟩

/-- C8 amended: a plain integer input is not equivalent to the one-hot
encoding: for every scalar q the call decodes the 0-d input to index 0 and
then fails with IndexError at the 0-d assignment, while the one-hot encoding
of k < n succeeds and draws from row k of the matrix. -/
theorem integer_state_fails_amended (n : ℕ) (u : ℕ → ℕ → ℚ) (hn : 1 ≤ n)
    (q r : ℚ) (k : ℕ) (hk : k < n) :
    sample_next_state (GenerativeModel.init n u) (.scalar q) r =
      .error "IndexError: too many indices for array" ∧
    npArgmax (.scalar q) = 0 ∧
    sample_next_state (GenerativeModel.init n u) (.vec (oneHot n k)) r =
      .ok (.vec ((List.replicate n 0).set
        (choiceIdx (rowOf (GenerativeModel.init n u) k) r) 1)) := by
  refine ⟨sample_scalar_err _ q r (by rw [init_matrix_length]; omega), rfl, ?_⟩
  have harg : argmax (oneHot n k) = k := argmax_oneHot hk
  have hid : argmax (oneHot n k) < (GenerativeModel.init n u).transition_matrix.length := by
    rw [harg, init_matrix_length]; exact hk
  have hrowlen : (rowOf (GenerativeModel.init n u) k).length = n := rowOf_init_length u hk
  have hne : rowOf (GenerativeModel.init n u) k ≠ [] := by
    intro h; rw [h] at hrowlen; simp at hrowlen; omega
  have hcl := choiceIdx_lt_length (rowOf (GenerativeModel.init n u) k) r hne
  have hs := sample_vec_ok _ (oneHot n k) r hid (by rw [harg, length_oneHot]; omega)
  rw [harg, length_oneHot] at hs
  exact hs

/-- Witness for the amended C8 at n = 2, k = 1. -/
theorem integer_state_fails_amended_witness :
    ((1 : ℕ) ≤ 2 ∧ (1 : ℕ) < 2) ∧
    (sample_next_state (GenerativeModel.init 2 uTest) (.scalar 1) (1/2) =
      .error "IndexError: too many indices for array" ∧
    npArgmax (.scalar 1) = 0 ∧
    sample_next_state (GenerativeModel.init 2 uTest) (.vec (oneHot 2 1)) (1/2) =
      .ok (.vec ((List.replicate 2 0).set
        (choiceIdx (rowOf (GenerativeModel.init 2 uTest) 1) (1/2)) 1))) :=
  ⟨⟨by norm_num, by norm_num⟩,
    integer_state_fails_amended 2 uTest (by norm_num) 1 (1/2) 1 (by norm_num)⟩

lemma runSimAux_congr (M : GenerativeModel) :
    ∀ (k : ℕ) (s : NpVal) (rs1 rs2 : ℕ → ℚ), (∀ i, i < k → rs1 i = rs2 i) →
      runSimAux M s k rs1 = runSimAux M s k rs2
  | 0, _, _, _, _ => rfl
  | k + 1, s, rs1, rs2, h => by
    have h0 : rs1 0 = rs2 0 := h 0 (by omega)
    simp only [runSimAux, h0]
    cases hsamp : sample_next_state M s (rs2 0) with
    | error e => rfl
    | ok nxt =>
      have hrec := runSimAux_congr M k nxt (fun i => rs1 (i + 1)) (fun i => rs2 (i + 1))
        (fun i hi => h (i + 1) (by omega))
      exact congrArg (fun t => match t with
        | Except.error e => Except.error e
        | Except.ok traj => Except.ok (s :: traj)) hrec

/-- C9: the model is never modified after construction — the state-passing
embeddings of both methods hand the model back unchanged (the Python bodies
contain no attribute assignment outside `__init__`) — and a simulation run is
a pure function of its own uniform samples: two calls whose streams agree on
the first k draws produce identical results, so calls share no mutable
sampling state beyond the externally supplied random source. -/
theorem model_immutable_and_runs_independent (M : GenerativeModel) (s : NpVal) (k : ℕ)
    (rs1 rs2 : ℕ → ℚ) (hagree : ∀ i, i < k → rs1 i = rs2 i) :
    (∀ (cur : NpVal) (r : ℚ), (sample_next_state_st M cur r).2 = M) ∧
    (∀ (s0 : NpVal) (steps : ℤ) (rs : ℕ → ℚ), (run_simulation_st M s0 steps rs).2 = M) ∧
    runSimAux M s k rs1 = runSimAux M s k rs2 :=
  ⟨fun _ _ => rfl, fun _ _ _ => rfl, runSimAux_congr M k s rs1 rs2 hagree⟩

/-- Witness for C9: streams that agree on the first draw but differ later. -/
theorem model_immutable_and_runs_independent_witness :
    (∀ i, i < 1 → (fun _ => (0 : ℚ)) i = (fun i => if i = 0 then (0 : ℚ) else 1) i) ∧
    ((∀ (cur : NpVal) (r : ℚ),
      (sample_next_state_st (GenerativeModel.init 2 uHalf) cur r).2 =
        GenerativeModel.init 2 uHalf) ∧
    (∀ (s0 : NpVal) (steps : ℤ) (rs : ℕ → ℚ),
      (run_simulation_st (GenerativeModel.init 2 uHalf) s0 steps rs).2 =
        GenerativeModel.init 2 uHalf) ∧
    runSimAux (GenerativeModel.init 2 uHalf) (.vec [1, 0]) 1 (fun _ => 0) =
      runSimAux (GenerativeModel.init 2 uHalf) (.vec [1, 0]) 1
        (fun i => if i = 0 then 0 else 1)) := by
  have h : ∀ i, i < 1 → (fun _ => (0 : ℚ)) i = (fun i => if i = 0 then (0 : ℚ) else 1) i := by
    intro i hi
    have hi0 : i = 0 := by omega
    subst hi0
    norm_num
  exact ⟨h, model_immutable_and_runs_independent (GenerativeModel.init 2 uHalf)
    (.vec [1, 0]) 1 (fun _ => 0) (fun i => if i = 0 then 0 else 1) h⟩

/-- C10: the returned one-hot vector is shaped like the input, not like the
world: in general any successful vector result has the length of the input
vector, and for an input of length m > n whose first maximum lies below n the
call succeeds and returns a one-hot vector of length m, not n. -/
theorem output_shaped_like_input (n : ℕ) (u : ℕ → ℕ → ℚ) (s : List ℚ) (r : ℚ)
    (hm : argmax s < n) (hbig : n < s.length) :
    (∀ (M : GenerativeModel) (t : List ℚ) (rr : ℚ) (out : List ℚ),
      sample_next_state M (.vec t) rr = .ok (.vec out) → out.length = t.length) ∧
    (∃ out, sample_next_state (GenerativeModel.init n u) (.vec s) r = .ok (.vec out) ∧
      out.length = s.length ∧ n < out.length) := by
  constructor
  · intro M t rr out h
    simp only [sample_next_state, npArgmax, npZerosLike] at h
    cases hg : M.transition_matrix[argmax t]? with
    | none => rw [hg] at h; simp at h
    | some p =>
      rw [hg] at h
      simp only [npSetIndex] at h
      split at h
      · simp only [Except.ok.injEq, NpVal.vec.injEq] at h
        rw [← h]
        simp
      · simp at h
  · have hid : argmax s < (GenerativeModel.init n u).transition_matrix.length := by
      rw [init_matrix_length]; exact hm
    have hrowlen : (rowOf (GenerativeModel.init n u) (argmax s)).length = n :=
      rowOf_init_length u hm
    have hne : rowOf (GenerativeModel.init n u) (argmax s) ≠ [] := by
      intro h; rw [h] at hrowlen; simp at hrowlen; omega
    have hcl := choiceIdx_lt_length (rowOf (GenerativeModel.init n u) (argmax s)) r hne
    refine ⟨_, sample_vec_ok _ s r hid (by omega), by simp, ?_⟩
    simpa using hbig

/-- Witness for C10: a 2-state model fed a length-3 vector returns a length-3
one-hot vector. -/
theorem output_shaped_like_input_witness :
    (argmax [1, 0, 0] < 2 ∧ 2 < ([1, 0, 0] : List ℚ).length) ∧
    ((∀ (M : GenerativeModel) (t : List ℚ) (rr : ℚ) (out : List ℚ),
      sample_next_state M (.vec t) rr = .ok (.vec out) → out.length = t.length) ∧
    (∃ out, sample_next_state (GenerativeModel.init 2 uTest) (.vec [1, 0, 0]) 0 =
        .ok (.vec out) ∧
      out.length = ([1, 0, 0] : List ℚ).length ∧ 2 < out.length)) := by
  have h1 : argmax [1, 0, 0] < 2 := by norm_num [argmax, argmaxAux]
  have h2 : 2 < ([1, 0, 0] : List ℚ).length := by norm_num
  exact ⟨⟨h1, h2⟩, output_shaped_like_input 2 uTest [1, 0, 0] 0 h1 h2⟩

end One
